import Mathlib

/-!
Verification of the IAM policy-attachment resource
(`resource_aws_iam_policy_attach.go`).

The Go file implements four CRUD entry points (Create/Read/Update/Delete)
over a remote IAM client.  We embed it shallowly: the IAM connection is a
record of response functions (one per remote endpoint), every operation
returns the ordered trace of remote calls it issued together with the
resulting resource data and error, and the Go loops become structural
recursion over the membership lists.
-/

namespace IamPolicyAttach

/-- Go `error` values occurring in this file: `awserr.Error` values carrying a
code (the only kind inspected via type assertion), the validation error from
`Create` when no principals are declared, and the four `fmt.Errorf` aggregate
errors, modelled structurally as carrying their three (possibly nil) per-kind
error slots. -/
inductive GoError where
  | awsError (code msg : String)
  | otherError (msg : String)
  | validation (name : String)
  | aggregateCreate (name : String) (userErr roleErr groupErr : Option GoError)
  | aggregateRead (name : String) (userErr roleErr groupErr : Option GoError)
  | aggregateUpdate (name : String) (userErr roleErr groupErr : Option GoError)
  | aggregateDelete (name : String) (userErr roleErr groupErr : Option GoError)

/-- One remote API call, as issued by the resource (the trace records the
principal name and the policy ARN passed to the AWS SDK). -/
inductive Call where
  | attachUser (user arn : String)
  | attachRole (role arn : String)
  | attachGroup (group arn : String)
  | detachUser (user arn : String)
  | detachRole (role arn : String)
  | detachGroup (group arn : String)
  | getPolicy (arn : String)
  | listEntitiesForPolicy (arn : String)
deriving DecidableEq, Repr

/-- Result of `ListEntitiesForPolicy`: the three lists of principal names
(the Go code reads `*u.UserName` etc. out of the entity structs; we keep the
names directly). -/
structure Entities where
  policyUsers : List String
  policyRoles : List String
  policyGroups : List String
deriving DecidableEq, Repr

/-- The IAM connection, as an oracle: for each endpoint, the response the
remote system would give to that request.  Attach/detach endpoints return
`none` on success or `some err`; `GetPolicy`'s success payload is discarded
by the Go code (`_, err :=`), so only its error matters. -/
structure IAMConn where
  attachUserPolicy : String → String → Option GoError
  attachRolePolicy : String → String → Option GoError
  attachGroupPolicy : String → String → Option GoError
  detachUserPolicy : String → String → Option GoError
  detachRolePolicy : String → String → Option GoError
  detachGroupPolicy : String → String → Option GoError
  getPolicy : String → Option GoError
  listEntitiesForPolicy : String → Except GoError Entities

/-- The `schema.ResourceData` fields this resource reads and writes.  The
three membership sets are kept as the lists their `schema.Set.List()`
iteration yields (no duplicates, order the set's iteration order); `id` is
the resource identity, `""` when unset (Go `d.SetId("")` clears it). -/
structure ResourceData where
  name : String
  policy_arn : String
  users : List String
  roles : List String
  groups : List String
  id : String
deriving DecidableEq, Repr

/-- Modelled from the spec: `expandStringList` lives elsewhere in this
repository (`structure.go`), not in the file under verification.  Per the
spec's Create precondition — "at least one of the three desired sets is
non-empty; otherwise fails with `ValidationError`" — an empty declared set
must expand to a Go `nil` slice so that the `users == nil && roles == nil &&
groups == nil` guard fires.  We model the expanded `[]*string` as
`Option (List String)`: `none` for Go `nil` (empty set), `some l` otherwise. -/
def expandStringList (l : List String) : Option (List String) :=
  if l.isEmpty then none else some l

/-- Go `range` over a possibly-nil slice iterates zero times on `nil`:
the list of elements a loop over the expanded slice visits. -/
def sliceElems (o : Option (List String)) : List String := o.getD []

/-- `attachPolicyToUsers`: attach the policy to each user in turn, aborting
at the first error. -/
def attachPolicyToUsers (conn : IAMConn) (users : List String) (arn : String) :
    List Call × Option GoError :=
  match users with
  | [] => ([], none)
  | u :: rest =>
    match conn.attachUserPolicy u arn with
    | some err => ([Call.attachUser u arn], some err)
    | none =>
      let r := attachPolicyToUsers conn rest arn
      (Call.attachUser u arn :: r.1, r.2)

/-- `attachPolicyToRoles`: attach the policy to each role in turn, aborting
at the first error. -/
def attachPolicyToRoles (conn : IAMConn) (roles : List String) (arn : String) :
    List Call × Option GoError :=
  match roles with
  | [] => ([], none)
  | r :: rest =>
    match conn.attachRolePolicy r arn with
    | some err => ([Call.attachRole r arn], some err)
    | none =>
      let t := attachPolicyToRoles conn rest arn
      (Call.attachRole r arn :: t.1, t.2)

/-- `attachPolicyToGroups`: attach the policy to each group in turn, aborting
at the first error. -/
def attachPolicyToGroups (conn : IAMConn) (groups : List String) (arn : String) :
    List Call × Option GoError :=
  match groups with
  | [] => ([], none)
  | g :: rest =>
    match conn.attachGroupPolicy g arn with
    | some err => ([Call.attachGroup g arn], some err)
    | none =>
      let t := attachPolicyToGroups conn rest arn
      (Call.attachGroup g arn :: t.1, t.2)

/-- `detachPolicyFromUsers`: detach the policy from each user in turn,
aborting at the first error. -/
def detachPolicyFromUsers (conn : IAMConn) (users : List String) (arn : String) :
    List Call × Option GoError :=
  match users with
  | [] => ([], none)
  | u :: rest =>
    match conn.detachUserPolicy u arn with
    | some err => ([Call.detachUser u arn], some err)
    | none =>
      let r := detachPolicyFromUsers conn rest arn
      (Call.detachUser u arn :: r.1, r.2)

/-- `detachPolicyFromRoles`: detach the policy from each role in turn,
aborting at the first error. -/
def detachPolicyFromRoles (conn : IAMConn) (roles : List String) (arn : String) :
    List Call × Option GoError :=
  match roles with
  | [] => ([], none)
  | r :: rest =>
    match conn.detachRolePolicy r arn with
    | some err => ([Call.detachRole r arn], some err)
    | none =>
      let t := detachPolicyFromRoles conn rest arn
      (Call.detachRole r arn :: t.1, t.2)

/-- `detachPolicyFromGroups`: detach the policy from each group in turn,
aborting at the first error. -/
def detachPolicyFromGroups (conn : IAMConn) (groups : List String) (arn : String) :
    List Call × Option GoError :=
  match groups with
  | [] => ([], none)
  | g :: rest =>
    match conn.detachGroupPolicy g arn with
    | some err => ([Call.detachGroup g arn], some err)
    | none =>
      let t := detachPolicyFromGroups conn rest arn
      (Call.detachGroup g arn :: t.1, t.2)

/-- `resourceAwsIamPolicyAttachmentRead`: ask `GetPolicy`; on an
`awserr.Error` with code `NoSuchIdentity` clear the id and succeed; on any
other error propagate it; otherwise list the policy's entities and store the
three name lists into the resource data (`d.Set` on in-memory fields cannot
fail in this model, so the Go branch aggregating `d.Set` errors is never
taken and is omitted). -/
def resourceAwsIamPolicyAttachmentRead (conn : IAMConn) (d : ResourceData) :
    List Call × ResourceData × Option GoError :=
  let arn := d.policy_arn
  match conn.getPolicy arn with
  | some err =>
    match err with
    | GoError.awsError code msg =>
      if code = "NoSuchIdentity" then
        ([Call.getPolicy arn], { d with id := "" }, none)
      else
        ([Call.getPolicy arn], d, some (GoError.awsError code msg))
    | e => ([Call.getPolicy arn], d, some e)
  | none =>
    match conn.listEntitiesForPolicy arn with
    | Except.error err =>
      ([Call.getPolicy arn, Call.listEntitiesForPolicy arn], d, some err)
    | Except.ok ents =>
      ([Call.getPolicy arn, Call.listEntitiesForPolicy arn],
       { d with users := ents.policyUsers, roles := ents.policyRoles,
                groups := ents.policyGroups },
       none)

/-- The `users` leg of Create: `if users != nil { userErr =
attachPolicyToUsers(conn, users, arn) }`. -/
def createUserResult (conn : IAMConn) (d : ResourceData) :
    List Call × Option GoError :=
  match expandStringList d.users with
  | none => ([], none)
  | some us => attachPolicyToUsers conn us d.policy_arn

/-- The `roles` leg of Create. -/
def createRoleResult (conn : IAMConn) (d : ResourceData) :
    List Call × Option GoError :=
  match expandStringList d.roles with
  | none => ([], none)
  | some rs => attachPolicyToRoles conn rs d.policy_arn

/-- The `groups` leg of Create. -/
def createGroupResult (conn : IAMConn) (d : ResourceData) :
    List Call × Option GoError :=
  match expandStringList d.groups with
  | none => ([], none)
  | some gs => attachPolicyToGroups conn gs d.policy_arn

/-- `resourceAwsIamPolicyAttachmentCreate`: reject when all three expanded
sets are nil; otherwise attach each non-nil kind (collecting the three
per-kind errors), fail with the aggregate error if any is non-nil, else set
the id to the name and run Read. -/
def resourceAwsIamPolicyAttachmentCreate (conn : IAMConn) (d : ResourceData) :
    List Call × ResourceData × Option GoError :=
  let name := d.name
  let users := expandStringList d.users
  let roles := expandStringList d.roles
  let groups := expandStringList d.groups
  if users.isNone && roles.isNone && groups.isNone then
    ([], d, some (GoError.validation name))
  else
    let ur := createUserResult conn d
    let rr := createRoleResult conn d
    let gr := createGroupResult conn d
    let trace := ur.1 ++ rr.1 ++ gr.1
    if ur.2.isSome || rr.2.isSome || gr.2.isSome then
      (trace, d, some (GoError.aggregateCreate name ur.2 rr.2 gr.2))
    else
      let d1 := { d with id := name }
      let r := resourceAwsIamPolicyAttachmentRead conn d1
      (trace ++ r.1, r.2.1, r.2.2)

/-- Equality of two `schema.Set`s (same elements, order irrelevant):
`d.HasChange` on a set field is false exactly when old and new are equal as
sets. -/
def setEq (a b : List String) : Bool :=
  a.all (fun x => b.contains x) && b.all (fun x => a.contains x)

/-- `d.HasChange(field)` for a set-valued field. -/
def hasChange (old cur : List String) : Bool := !(setEq old cur)

/-- `schema.Set.Difference`: elements of `a` not in `b`, in `a`'s iteration
order. -/
def setDifference (a b : List String) : List String :=
  a.filter (fun x => !(b.contains x))

/-- Update's view of the resource: the current (desired) data `d` — what
`d.Get` returns during Update — plus the prior sets, so that
`d.GetChange(field)` returns `(prior, current)`.  A Go-nil prior set is the
empty list (the `if o == nil { o = new(schema.Set) }` normalisation). -/
structure UpdateData where
  d : ResourceData
  priorUsers : List String
  priorRoles : List String
  priorGroups : List String

/-- `updateUsers`: compute `remove = old − new`, `add = new − old`, detach
every member of `remove`, then (only if all detaches succeeded) attach every
member of `add`. -/
def updateUsers (conn : IAMConn) (u : UpdateData) : List Call × Option GoError :=
  let arn := u.d.policy_arn
  let os := u.priorUsers
  let ns := u.d.users
  let remove := sliceElems (expandStringList (setDifference os ns))
  let add := sliceElems (expandStringList (setDifference ns os))
  let dr := detachPolicyFromUsers conn remove arn
  match dr.2 with
  | some rErr => (dr.1, some rErr)
  | none =>
    let ar := attachPolicyToUsers conn add arn
    (dr.1 ++ ar.1, ar.2)

/-- `updateRoles`: the same reconciliation for roles. -/
def updateRoles (conn : IAMConn) (u : UpdateData) : List Call × Option GoError :=
  let arn := u.d.policy_arn
  let os := u.priorRoles
  let ns := u.d.roles
  let remove := sliceElems (expandStringList (setDifference os ns))
  let add := sliceElems (expandStringList (setDifference ns os))
  let dr := detachPolicyFromRoles conn remove arn
  match dr.2 with
  | some rErr => (dr.1, some rErr)
  | none =>
    let ar := attachPolicyToRoles conn add arn
    (dr.1 ++ ar.1, ar.2)

/-- `updateGroups`: the same reconciliation for groups. -/
def updateGroups (conn : IAMConn) (u : UpdateData) : List Call × Option GoError :=
  let arn := u.d.policy_arn
  let os := u.priorGroups
  let ns := u.d.groups
  let remove := sliceElems (expandStringList (setDifference os ns))
  let add := sliceElems (expandStringList (setDifference ns os))
  let dr := detachPolicyFromGroups conn remove arn
  match dr.2 with
  | some rErr => (dr.1, some rErr)
  | none =>
    let ar := attachPolicyToGroups conn add arn
    (dr.1 ++ ar.1, ar.2)

/-- `resourceAwsIamPolicyAttachmentUpdate`: for each kind with a declared
change run its per-kind reconciliation, collect the three per-kind errors,
fail with the aggregate error if any is non-nil, else run Read. -/
def resourceAwsIamPolicyAttachmentUpdate (conn : IAMConn) (u : UpdateData) :
    List Call × ResourceData × Option GoError :=
  let name := u.d.name
  let ur := if hasChange u.priorUsers u.d.users then updateUsers conn u
            else ([], none)
  let rr := if hasChange u.priorRoles u.d.roles then updateRoles conn u
            else ([], none)
  let gr := if hasChange u.priorGroups u.d.groups then updateGroups conn u
            else ([], none)
  let trace := ur.1 ++ rr.1 ++ gr.1
  if ur.2.isSome || rr.2.isSome || gr.2.isSome then
    (trace, u.d, some (GoError.aggregateUpdate name ur.2 rr.2 gr.2))
  else
    let r := resourceAwsIamPolicyAttachmentRead conn u.d
    (trace ++ r.1, r.2.1, r.2.2)

/-- The `users` leg of Delete. -/
def deleteUserResult (conn : IAMConn) (d : ResourceData) :
    List Call × Option GoError :=
  match expandStringList d.users with
  | none => ([], none)
  | some us => detachPolicyFromUsers conn us d.policy_arn

/-- The `roles` leg of Delete. -/
def deleteRoleResult (conn : IAMConn) (d : ResourceData) :
    List Call × Option GoError :=
  match expandStringList d.roles with
  | none => ([], none)
  | some rs => detachPolicyFromRoles conn rs d.policy_arn

/-- The `groups` leg of Delete. -/
def deleteGroupResult (conn : IAMConn) (d : ResourceData) :
    List Call × Option GoError :=
  match expandStringList d.groups with
  | none => ([], none)
  | some gs => detachPolicyFromGroups conn gs d.policy_arn

/-- `resourceAwsIamPolicyAttachmentDelete`: detach each non-nil kind,
collect the three per-kind errors, fail with the aggregate error if any is
non-nil. -/
def resourceAwsIamPolicyAttachmentDelete (conn : IAMConn) (d : ResourceData) :
    List Call × Option GoError :=
  let name := d.name
  let ur := deleteUserResult conn d
  let rr := deleteRoleResult conn d
  let gr := deleteGroupResult conn d
  let trace := ur.1 ++ rr.1 ++ gr.1
  if ur.2.isSome || rr.2.isSome || gr.2.isSome then
    (trace, some (GoError.aggregateDelete name ur.2 rr.2 gr.2))
  else
    (trace, none)

/-- Classification of calls: attach/detach calls versus the read-only ones. -/
def Call.isMutation : Call → Bool
  | Call.getPolicy _ => false
  | Call.listEntitiesForPolicy _ => false
  | _ => true

/-- Calls addressed to the users kind. -/
def Call.isUserCall : Call → Bool
  | Call.attachUser _ _ => true
  | Call.detachUser _ _ => true
  | _ => false

/-- Calls addressed to the roles kind. -/
def Call.isRoleCall : Call → Bool
  | Call.attachRole _ _ => true
  | Call.detachRole _ _ => true
  | _ => false

/-- Calls addressed to the groups kind. -/
def Call.isGroupCall : Call → Bool
  | Call.attachGroup _ _ => true
  | Call.detachGroup _ _ => true
  | _ => false


/-- Every call issued by `attachPolicyToUsers` addresses a member of the given list. -/
theorem attachPolicyToUsers_mem (conn : IAMConn) (l : List String) (arn : String) :
    ∀ c ∈ (attachPolicyToUsers conn l arn).1, ∃ x, x ∈ l ∧ c = Call.attachUser x arn := by
  induction l with
  | nil => intro c hc; simp [attachPolicyToUsers] at hc
  | cons u rest ih =>
    intro c hc
    cases hcall : conn.attachUserPolicy u arn with
    | some e =>
      simp only [attachPolicyToUsers, hcall] at hc
      simp only [List.mem_singleton] at hc
      exact ⟨u, List.mem_cons_self u rest, hc⟩
    | none =>
      simp only [attachPolicyToUsers, hcall] at hc
      rcases List.mem_cons.mp hc with h | h
      · exact ⟨u, List.mem_cons_self u rest, h⟩
      · obtain ⟨x, hx, hcx⟩ := ih c h
        exact ⟨x, List.mem_cons_of_mem u hx, hcx⟩

/-- When `attachPolicyToUsers` reports no error it issued exactly one call per member, in
list order. -/
theorem attachPolicyToUsers_ok (conn : IAMConn) (l : List String) (arn : String)
    (h : (attachPolicyToUsers conn l arn).2 = none) :
    (attachPolicyToUsers conn l arn).1 = l.map (fun x => Call.attachUser x arn) := by
  induction l with
  | nil => simp [attachPolicyToUsers]
  | cons u rest ih =>
    cases hcall : conn.attachUserPolicy u arn with
    | some e =>
      simp only [attachPolicyToUsers, hcall] at h
      exact Option.noConfusion h
    | none =>
      simp only [attachPolicyToUsers, hcall] at h ⊢
      simp [ih h]

/-- When the remote endpoint succeeds on every member of `pre` and fails on
`u`, `attachPolicyToUsers` issues the calls for `pre` and `u` and stops: no member of
`post` is attempted. -/
theorem attachPolicyToUsers_split (conn : IAMConn) (pre : List String) (u : String)
    (post : List String) (arn : String) (e : GoError)
    (h1 : ∀ x ∈ pre, conn.attachUserPolicy x arn = none)
    (h2 : conn.attachUserPolicy u arn = some e) :
    attachPolicyToUsers conn (pre ++ u :: post) arn =
      ((pre.map fun x => Call.attachUser x arn) ++ [Call.attachUser u arn], some e) := by
  induction pre with
  | nil => simp [attachPolicyToUsers, h2]
  | cons p ps ih =>
    have hp : conn.attachUserPolicy p arn = none := h1 p (List.mem_cons_self p ps)
    have ihh := ih (fun x hx => h1 x (List.mem_cons_of_mem p hx))
    simp only [List.cons_append, attachPolicyToUsers, hp, List.append_eq, ihh]
    simp

/-- Every call issued by `attachPolicyToRoles` addresses a member of the given list. -/
theorem attachPolicyToRoles_mem (conn : IAMConn) (l : List String) (arn : String) :
    ∀ c ∈ (attachPolicyToRoles conn l arn).1, ∃ x, x ∈ l ∧ c = Call.attachRole x arn := by
  induction l with
  | nil => intro c hc; simp [attachPolicyToRoles] at hc
  | cons u rest ih =>
    intro c hc
    cases hcall : conn.attachRolePolicy u arn with
    | some e =>
      simp only [attachPolicyToRoles, hcall] at hc
      simp only [List.mem_singleton] at hc
      exact ⟨u, List.mem_cons_self u rest, hc⟩
    | none =>
      simp only [attachPolicyToRoles, hcall] at hc
      rcases List.mem_cons.mp hc with h | h
      · exact ⟨u, List.mem_cons_self u rest, h⟩
      · obtain ⟨x, hx, hcx⟩ := ih c h
        exact ⟨x, List.mem_cons_of_mem u hx, hcx⟩

/-- When `attachPolicyToRoles` reports no error it issued exactly one call per member, in
list order. -/
theorem attachPolicyToRoles_ok (conn : IAMConn) (l : List String) (arn : String)
    (h : (attachPolicyToRoles conn l arn).2 = none) :
    (attachPolicyToRoles conn l arn).1 = l.map (fun x => Call.attachRole x arn) := by
  induction l with
  | nil => simp [attachPolicyToRoles]
  | cons u rest ih =>
    cases hcall : conn.attachRolePolicy u arn with
    | some e =>
      simp only [attachPolicyToRoles, hcall] at h
      exact Option.noConfusion h
    | none =>
      simp only [attachPolicyToRoles, hcall] at h ⊢
      simp [ih h]

/-- Every call issued by `attachPolicyToGroups` addresses a member of the given list. -/
theorem attachPolicyToGroups_mem (conn : IAMConn) (l : List String) (arn : String) :
    ∀ c ∈ (attachPolicyToGroups conn l arn).1, ∃ x, x ∈ l ∧ c = Call.attachGroup x arn := by
  induction l with
  | nil => intro c hc; simp [attachPolicyToGroups] at hc
  | cons u rest ih =>
    intro c hc
    cases hcall : conn.attachGroupPolicy u arn with
    | some e =>
      simp only [attachPolicyToGroups, hcall] at hc
      simp only [List.mem_singleton] at hc
      exact ⟨u, List.mem_cons_self u rest, hc⟩
    | none =>
      simp only [attachPolicyToGroups, hcall] at hc
      rcases List.mem_cons.mp hc with h | h
      · exact ⟨u, List.mem_cons_self u rest, h⟩
      · obtain ⟨x, hx, hcx⟩ := ih c h
        exact ⟨x, List.mem_cons_of_mem u hx, hcx⟩

/-- When `attachPolicyToGroups` reports no error it issued exactly one call per member, in
list order. -/
theorem attachPolicyToGroups_ok (conn : IAMConn) (l : List String) (arn : String)
    (h : (attachPolicyToGroups conn l arn).2 = none) :
    (attachPolicyToGroups conn l arn).1 = l.map (fun x => Call.attachGroup x arn) := by
  induction l with
  | nil => simp [attachPolicyToGroups]
  | cons u rest ih =>
    cases hcall : conn.attachGroupPolicy u arn with
    | some e =>
      simp only [attachPolicyToGroups, hcall] at h
      exact Option.noConfusion h
    | none =>
      simp only [attachPolicyToGroups, hcall] at h ⊢
      simp [ih h]

/-- Every call issued by `detachPolicyFromUsers` addresses a member of the given list. -/
theorem detachPolicyFromUsers_mem (conn : IAMConn) (l : List String) (arn : String) :
    ∀ c ∈ (detachPolicyFromUsers conn l arn).1, ∃ x, x ∈ l ∧ c = Call.detachUser x arn := by
  induction l with
  | nil => intro c hc; simp [detachPolicyFromUsers] at hc
  | cons u rest ih =>
    intro c hc
    cases hcall : conn.detachUserPolicy u arn with
    | some e =>
      simp only [detachPolicyFromUsers, hcall] at hc
      simp only [List.mem_singleton] at hc
      exact ⟨u, List.mem_cons_self u rest, hc⟩
    | none =>
      simp only [detachPolicyFromUsers, hcall] at hc
      rcases List.mem_cons.mp hc with h | h
      · exact ⟨u, List.mem_cons_self u rest, h⟩
      · obtain ⟨x, hx, hcx⟩ := ih c h
        exact ⟨x, List.mem_cons_of_mem u hx, hcx⟩

/-- When `detachPolicyFromUsers` reports no error it issued exactly one call per member, in
list order. -/
theorem detachPolicyFromUsers_ok (conn : IAMConn) (l : List String) (arn : String)
    (h : (detachPolicyFromUsers conn l arn).2 = none) :
    (detachPolicyFromUsers conn l arn).1 = l.map (fun x => Call.detachUser x arn) := by
  induction l with
  | nil => simp [detachPolicyFromUsers]
  | cons u rest ih =>
    cases hcall : conn.detachUserPolicy u arn with
    | some e =>
      simp only [detachPolicyFromUsers, hcall] at h
      exact Option.noConfusion h
    | none =>
      simp only [detachPolicyFromUsers, hcall] at h ⊢
      simp [ih h]

/-- Every call issued by `detachPolicyFromRoles` addresses a member of the given list. -/
theorem detachPolicyFromRoles_mem (conn : IAMConn) (l : List String) (arn : String) :
    ∀ c ∈ (detachPolicyFromRoles conn l arn).1, ∃ x, x ∈ l ∧ c = Call.detachRole x arn := by
  induction l with
  | nil => intro c hc; simp [detachPolicyFromRoles] at hc
  | cons u rest ih =>
    intro c hc
    cases hcall : conn.detachRolePolicy u arn with
    | some e =>
      simp only [detachPolicyFromRoles, hcall] at hc
      simp only [List.mem_singleton] at hc
      exact ⟨u, List.mem_cons_self u rest, hc⟩
    | none =>
      simp only [detachPolicyFromRoles, hcall] at hc
      rcases List.mem_cons.mp hc with h | h
      · exact ⟨u, List.mem_cons_self u rest, h⟩
      · obtain ⟨x, hx, hcx⟩ := ih c h
        exact ⟨x, List.mem_cons_of_mem u hx, hcx⟩

/-- When `detachPolicyFromRoles` reports no error it issued exactly one call per member, in
list order. -/
theorem detachPolicyFromRoles_ok (conn : IAMConn) (l : List String) (arn : String)
    (h : (detachPolicyFromRoles conn l arn).2 = none) :
    (detachPolicyFromRoles conn l arn).1 = l.map (fun x => Call.detachRole x arn) := by
  induction l with
  | nil => simp [detachPolicyFromRoles]
  | cons u rest ih =>
    cases hcall : conn.detachRolePolicy u arn with
    | some e =>
      simp only [detachPolicyFromRoles, hcall] at h
      exact Option.noConfusion h
    | none =>
      simp only [detachPolicyFromRoles, hcall] at h ⊢
      simp [ih h]

/-- Every call issued by `detachPolicyFromGroups` addresses a member of the given list. -/
theorem detachPolicyFromGroups_mem (conn : IAMConn) (l : List String) (arn : String) :
    ∀ c ∈ (detachPolicyFromGroups conn l arn).1, ∃ x, x ∈ l ∧ c = Call.detachGroup x arn := by
  induction l with
  | nil => intro c hc; simp [detachPolicyFromGroups] at hc
  | cons u rest ih =>
    intro c hc
    cases hcall : conn.detachGroupPolicy u arn with
    | some e =>
      simp only [detachPolicyFromGroups, hcall] at hc
      simp only [List.mem_singleton] at hc
      exact ⟨u, List.mem_cons_self u rest, hc⟩
    | none =>
      simp only [detachPolicyFromGroups, hcall] at hc
      rcases List.mem_cons.mp hc with h | h
      · exact ⟨u, List.mem_cons_self u rest, h⟩
      · obtain ⟨x, hx, hcx⟩ := ih c h
        exact ⟨x, List.mem_cons_of_mem u hx, hcx⟩

/-- When `detachPolicyFromGroups` reports no error it issued exactly one call per member, in
list order. -/
theorem detachPolicyFromGroups_ok (conn : IAMConn) (l : List String) (arn : String)
    (h : (detachPolicyFromGroups conn l arn).2 = none) :
    (detachPolicyFromGroups conn l arn).1 = l.map (fun x => Call.detachGroup x arn) := by
  induction l with
  | nil => simp [detachPolicyFromGroups]
  | cons u rest ih =>
    cases hcall : conn.detachGroupPolicy u arn with
    | some e =>
      simp only [detachPolicyFromGroups, hcall] at h
      exact Option.noConfusion h
    | none =>
      simp only [detachPolicyFromGroups, hcall] at h ⊢
      simp [ih h]

/-- When the remote endpoint succeeds on every member of `pre` and fails on
`u`, `detachPolicyFromGroups` issues the calls for `pre` and `u` and stops: no member of
`post` is attempted. -/
theorem detachPolicyFromGroups_split (conn : IAMConn) (pre : List String) (u : String)
    (post : List String) (arn : String) (e : GoError)
    (h1 : ∀ x ∈ pre, conn.detachGroupPolicy x arn = none)
    (h2 : conn.detachGroupPolicy u arn = some e) :
    detachPolicyFromGroups conn (pre ++ u :: post) arn =
      ((pre.map fun x => Call.detachGroup x arn) ++ [Call.detachGroup u arn], some e) := by
  induction pre with
  | nil => simp [detachPolicyFromGroups, h2]
  | cons p ps ih =>
    have hp : conn.detachGroupPolicy p arn = none := h1 p (List.mem_cons_self p ps)
    have ihh := ih (fun x hx => h1 x (List.mem_cons_of_mem p hx))
    simp only [List.cons_append, detachPolicyFromGroups, hp, List.append_eq, ihh]
    simp


/-- Ranging over the expanded slice visits exactly the original elements. -/
theorem sliceElems_expandStringList (l : List String) :
    sliceElems (expandStringList l) = l := by
  cases l <;> simp [sliceElems, expandStringList]

/-- Membership in a `schema.Set` difference. -/
theorem mem_setDifference (a b : List String) (x : String) :
    x ∈ setDifference a b ↔ x ∈ a ∧ x ∉ b := by
  simp [setDifference, List.mem_filter]

/-- A set is equal to itself, so `HasChange` is false on an unchanged field. -/
theorem setEq_refl (a : List String) : setEq a a = true := by
  simp [setEq, List.all_eq_true]

/-- Read only ever issues `GetPolicy` and `ListEntitiesForPolicy` requests,
in that order, for the resource's ARN. -/
theorem read_calls (conn : IAMConn) (d : ResourceData) :
    ∀ c ∈ (resourceAwsIamPolicyAttachmentRead conn d).1,
      c = Call.getPolicy d.policy_arn ∨ c = Call.listEntitiesForPolicy d.policy_arn := by
  intro c hc
  simp only [resourceAwsIamPolicyAttachmentRead] at hc
  rcases hget : conn.getPolicy d.policy_arn with _ | err
  · rw [hget] at hc
    rcases hlist : conn.listEntitiesForPolicy d.policy_arn with e | ents <;>
        rw [hlist] at hc <;> simp at hc <;> tauto
  · rw [hget] at hc
    cases err with
    | awsError code msg =>
      by_cases hcode : code = "NoSuchIdentity"
      · simp [hcode] at hc
        left; exact hc
      · simp [hcode] at hc
        left; exact hc
    | otherError m => simp at hc; left; exact hc
    | validation n => simp at hc; left; exact hc
    | aggregateCreate n a b cc => simp at hc; left; exact hc
    | aggregateRead n a b cc => simp at hc; left; exact hc
    | aggregateUpdate n a b cc => simp at hc; left; exact hc
    | aggregateDelete n a b cc => simp at hc; left; exact hc

/-- Read issues no attach or detach call. -/
theorem read_no_mutation (conn : IAMConn) (d : ResourceData) :
    ∀ c ∈ (resourceAwsIamPolicyAttachmentRead conn d).1, c.isMutation = false := by
  intro c hc
  rcases read_calls conn d c hc with h | h <;> subst h <;> rfl


/-- When some detach fails, `updateUsers` stops with that error after the
detach calls issued so far. -/
theorem updateUsers_eq_some (conn : IAMConn) (u : UpdateData) (e : GoError)
    (h : (detachPolicyFromUsers conn (setDifference u.priorUsers u.d.users) u.d.policy_arn).2 = some e) :
    updateUsers conn u = ((detachPolicyFromUsers conn (setDifference u.priorUsers u.d.users) u.d.policy_arn).1, some e) := by
  simp only [updateUsers, sliceElems_expandStringList, h]

/-- When every detach succeeds, `updateUsers` issues the detaches then the
attaches and reports the attach leg's outcome. -/
theorem updateUsers_eq_none (conn : IAMConn) (u : UpdateData)
    (h : (detachPolicyFromUsers conn (setDifference u.priorUsers u.d.users) u.d.policy_arn).2 = none) :
    updateUsers conn u =
      ((detachPolicyFromUsers conn (setDifference u.priorUsers u.d.users) u.d.policy_arn).1 ++
        (attachPolicyToUsers conn (setDifference u.d.users u.priorUsers) u.d.policy_arn).1,
       (attachPolicyToUsers conn (setDifference u.d.users u.priorUsers) u.d.policy_arn).2) := by
  simp only [updateUsers, sliceElems_expandStringList, h]

/-- `updateUsers`'s trace splits into detach calls addressed to members of
`prior − desired` followed by attach calls addressed to members of
`desired − prior`; on success it is exactly one detach per removed member
then one attach per added member. -/
theorem updateUsers_shape (conn : IAMConn) (u : UpdateData) :
    ∃ td ta, (updateUsers conn u).1 = td ++ ta ∧
      (∀ c ∈ td, ∃ x, x ∈ setDifference u.priorUsers u.d.users ∧ c = Call.detachUser x u.d.policy_arn) ∧
      (∀ c ∈ ta, ∃ x, x ∈ setDifference u.d.users u.priorUsers ∧ c = Call.attachUser x u.d.policy_arn) ∧
      ((updateUsers conn u).2 = none →
        (updateUsers conn u).1 =
          (setDifference u.priorUsers u.d.users).map (fun x => Call.detachUser x u.d.policy_arn) ++
          (setDifference u.d.users u.priorUsers).map (fun x => Call.attachUser x u.d.policy_arn)) := by
  rcases hdr : (detachPolicyFromUsers conn (setDifference u.priorUsers u.d.users) u.d.policy_arn).2 with _ | e
  · have heq := updateUsers_eq_none conn u hdr
    refine ⟨(detachPolicyFromUsers conn (setDifference u.priorUsers u.d.users) u.d.policy_arn).1,
      (attachPolicyToUsers conn (setDifference u.d.users u.priorUsers) u.d.policy_arn).1, by rw [heq], ?_, ?_, ?_⟩
    · exact detachPolicyFromUsers_mem conn _ _
    · exact attachPolicyToUsers_mem conn _ _
    · intro h2
      rw [heq] at h2
      rw [heq]
      simp only at h2 ⊢
      rw [detachPolicyFromUsers_ok conn _ _ hdr, attachPolicyToUsers_ok conn _ _ h2]
  · have heq := updateUsers_eq_some conn u e hdr
    refine ⟨(detachPolicyFromUsers conn (setDifference u.priorUsers u.d.users) u.d.policy_arn).1, [], by rw [heq]; simp, ?_, ?_, ?_⟩
    · exact detachPolicyFromUsers_mem conn _ _
    · intro c hc
      exact absurd hc (List.not_mem_nil c)
    · intro h2
      rw [heq] at h2
      exact Option.noConfusion h2

/-- Every call `updateUsers` issues addresses the Users kind. -/
theorem updateUsers_kind_calls (conn : IAMConn) (u : UpdateData) :
    ∀ c ∈ (updateUsers conn u).1, c.isUserCall = true := by
  intro c hc
  obtain ⟨td, ta, heq, hd, ha, _⟩ := updateUsers_shape conn u
  rw [heq] at hc
  rcases List.mem_append.mp hc with h | h
  · obtain ⟨x, _, hcx⟩ := hd c h
    subst hcx; rfl
  · obtain ⟨x, _, hcx⟩ := ha c h
    subst hcx; rfl

/-- When some detach fails, `updateRoles` stops with that error after the
detach calls issued so far. -/
theorem updateRoles_eq_some (conn : IAMConn) (u : UpdateData) (e : GoError)
    (h : (detachPolicyFromRoles conn (setDifference u.priorRoles u.d.roles) u.d.policy_arn).2 = some e) :
    updateRoles conn u = ((detachPolicyFromRoles conn (setDifference u.priorRoles u.d.roles) u.d.policy_arn).1, some e) := by
  simp only [updateRoles, sliceElems_expandStringList, h]

/-- When every detach succeeds, `updateRoles` issues the detaches then the
attaches and reports the attach leg's outcome. -/
theorem updateRoles_eq_none (conn : IAMConn) (u : UpdateData)
    (h : (detachPolicyFromRoles conn (setDifference u.priorRoles u.d.roles) u.d.policy_arn).2 = none) :
    updateRoles conn u =
      ((detachPolicyFromRoles conn (setDifference u.priorRoles u.d.roles) u.d.policy_arn).1 ++
        (attachPolicyToRoles conn (setDifference u.d.roles u.priorRoles) u.d.policy_arn).1,
       (attachPolicyToRoles conn (setDifference u.d.roles u.priorRoles) u.d.policy_arn).2) := by
  simp only [updateRoles, sliceElems_expandStringList, h]

/-- `updateRoles`'s trace splits into detach calls addressed to members of
`prior − desired` followed by attach calls addressed to members of
`desired − prior`; on success it is exactly one detach per removed member
then one attach per added member. -/
theorem updateRoles_shape (conn : IAMConn) (u : UpdateData) :
    ∃ td ta, (updateRoles conn u).1 = td ++ ta ∧
      (∀ c ∈ td, ∃ x, x ∈ setDifference u.priorRoles u.d.roles ∧ c = Call.detachRole x u.d.policy_arn) ∧
      (∀ c ∈ ta, ∃ x, x ∈ setDifference u.d.roles u.priorRoles ∧ c = Call.attachRole x u.d.policy_arn) ∧
      ((updateRoles conn u).2 = none →
        (updateRoles conn u).1 =
          (setDifference u.priorRoles u.d.roles).map (fun x => Call.detachRole x u.d.policy_arn) ++
          (setDifference u.d.roles u.priorRoles).map (fun x => Call.attachRole x u.d.policy_arn)) := by
  rcases hdr : (detachPolicyFromRoles conn (setDifference u.priorRoles u.d.roles) u.d.policy_arn).2 with _ | e
  · have heq := updateRoles_eq_none conn u hdr
    refine ⟨(detachPolicyFromRoles conn (setDifference u.priorRoles u.d.roles) u.d.policy_arn).1,
      (attachPolicyToRoles conn (setDifference u.d.roles u.priorRoles) u.d.policy_arn).1, by rw [heq], ?_, ?_, ?_⟩
    · exact detachPolicyFromRoles_mem conn _ _
    · exact attachPolicyToRoles_mem conn _ _
    · intro h2
      rw [heq] at h2
      rw [heq]
      simp only at h2 ⊢
      rw [detachPolicyFromRoles_ok conn _ _ hdr, attachPolicyToRoles_ok conn _ _ h2]
  · have heq := updateRoles_eq_some conn u e hdr
    refine ⟨(detachPolicyFromRoles conn (setDifference u.priorRoles u.d.roles) u.d.policy_arn).1, [], by rw [heq]; simp, ?_, ?_, ?_⟩
    · exact detachPolicyFromRoles_mem conn _ _
    · intro c hc
      exact absurd hc (List.not_mem_nil c)
    · intro h2
      rw [heq] at h2
      exact Option.noConfusion h2

/-- Every call `updateRoles` issues addresses the Roles kind. -/
theorem updateRoles_kind_calls (conn : IAMConn) (u : UpdateData) :
    ∀ c ∈ (updateRoles conn u).1, c.isRoleCall = true := by
  intro c hc
  obtain ⟨td, ta, heq, hd, ha, _⟩ := updateRoles_shape conn u
  rw [heq] at hc
  rcases List.mem_append.mp hc with h | h
  · obtain ⟨x, _, hcx⟩ := hd c h
    subst hcx; rfl
  · obtain ⟨x, _, hcx⟩ := ha c h
    subst hcx; rfl

/-- When some detach fails, `updateGroups` stops with that error after the
detach calls issued so far. -/
theorem updateGroups_eq_some (conn : IAMConn) (u : UpdateData) (e : GoError)
    (h : (detachPolicyFromGroups conn (setDifference u.priorGroups u.d.groups) u.d.policy_arn).2 = some e) :
    updateGroups conn u = ((detachPolicyFromGroups conn (setDifference u.priorGroups u.d.groups) u.d.policy_arn).1, some e) := by
  simp only [updateGroups, sliceElems_expandStringList, h]

/-- When every detach succeeds, `updateGroups` issues the detaches then the
attaches and reports the attach leg's outcome. -/
theorem updateGroups_eq_none (conn : IAMConn) (u : UpdateData)
    (h : (detachPolicyFromGroups conn (setDifference u.priorGroups u.d.groups) u.d.policy_arn).2 = none) :
    updateGroups conn u =
      ((detachPolicyFromGroups conn (setDifference u.priorGroups u.d.groups) u.d.policy_arn).1 ++
        (attachPolicyToGroups conn (setDifference u.d.groups u.priorGroups) u.d.policy_arn).1,
       (attachPolicyToGroups conn (setDifference u.d.groups u.priorGroups) u.d.policy_arn).2) := by
  simp only [updateGroups, sliceElems_expandStringList, h]

/-- `updateGroups`'s trace splits into detach calls addressed to members of
`prior − desired` followed by attach calls addressed to members of
`desired − prior`; on success it is exactly one detach per removed member
then one attach per added member. -/
theorem updateGroups_shape (conn : IAMConn) (u : UpdateData) :
    ∃ td ta, (updateGroups conn u).1 = td ++ ta ∧
      (∀ c ∈ td, ∃ x, x ∈ setDifference u.priorGroups u.d.groups ∧ c = Call.detachGroup x u.d.policy_arn) ∧
      (∀ c ∈ ta, ∃ x, x ∈ setDifference u.d.groups u.priorGroups ∧ c = Call.attachGroup x u.d.policy_arn) ∧
      ((updateGroups conn u).2 = none →
        (updateGroups conn u).1 =
          (setDifference u.priorGroups u.d.groups).map (fun x => Call.detachGroup x u.d.policy_arn) ++
          (setDifference u.d.groups u.priorGroups).map (fun x => Call.attachGroup x u.d.policy_arn)) := by
  rcases hdr : (detachPolicyFromGroups conn (setDifference u.priorGroups u.d.groups) u.d.policy_arn).2 with _ | e
  · have heq := updateGroups_eq_none conn u hdr
    refine ⟨(detachPolicyFromGroups conn (setDifference u.priorGroups u.d.groups) u.d.policy_arn).1,
      (attachPolicyToGroups conn (setDifference u.d.groups u.priorGroups) u.d.policy_arn).1, by rw [heq], ?_, ?_, ?_⟩
    · exact detachPolicyFromGroups_mem conn _ _
    · exact attachPolicyToGroups_mem conn _ _
    · intro h2
      rw [heq] at h2
      rw [heq]
      simp only at h2 ⊢
      rw [detachPolicyFromGroups_ok conn _ _ hdr, attachPolicyToGroups_ok conn _ _ h2]
  · have heq := updateGroups_eq_some conn u e hdr
    refine ⟨(detachPolicyFromGroups conn (setDifference u.priorGroups u.d.groups) u.d.policy_arn).1, [], by rw [heq]; simp, ?_, ?_, ?_⟩
    · exact detachPolicyFromGroups_mem conn _ _
    · intro c hc
      exact absurd hc (List.not_mem_nil c)
    · intro h2
      rw [heq] at h2
      exact Option.noConfusion h2

/-- Every call `updateGroups` issues addresses the Groups kind. -/
theorem updateGroups_kind_calls (conn : IAMConn) (u : UpdateData) :
    ∀ c ∈ (updateGroups conn u).1, c.isGroupCall = true := by
  intro c hc
  obtain ⟨td, ta, heq, hd, ha, _⟩ := updateGroups_shape conn u
  rw [heq] at hc
  rcases List.mem_append.mp hc with h | h
  · obtain ⟨x, _, hcx⟩ := hd c h
    subst hcx; rfl
  · obtain ⟨x, _, hcx⟩ := ha c h
    subst hcx; rfl

/-- C1: for every principal kind (users, roles, groups), Update's per-kind
reconciliation computes `remove = prior − desired` and `add = desired −
prior`, and every detach call it issues (addressed to a member of `remove`)
precedes every attach call it issues (addressed to a member of `add`); on a
successful reconciliation the trace is exactly one detach per member of
`remove` followed by one attach per member of `add`. -/
theorem update_removes_then_adds (conn : IAMConn) (u : UpdateData) :
    (∃ td ta, (updateUsers conn u).1 = td ++ ta ∧
      (∀ c ∈ td, ∃ x, x ∈ setDifference u.priorUsers u.d.users ∧
        c = Call.detachUser x u.d.policy_arn) ∧
      (∀ c ∈ ta, ∃ x, x ∈ setDifference u.d.users u.priorUsers ∧
        c = Call.attachUser x u.d.policy_arn) ∧
      ((updateUsers conn u).2 = none →
        (updateUsers conn u).1 =
          (setDifference u.priorUsers u.d.users).map
            (fun x => Call.detachUser x u.d.policy_arn) ++
          (setDifference u.d.users u.priorUsers).map
            (fun x => Call.attachUser x u.d.policy_arn))) ∧
    (∃ td ta, (updateRoles conn u).1 = td ++ ta ∧
      (∀ c ∈ td, ∃ x, x ∈ setDifference u.priorRoles u.d.roles ∧
        c = Call.detachRole x u.d.policy_arn) ∧
      (∀ c ∈ ta, ∃ x, x ∈ setDifference u.d.roles u.priorRoles ∧
        c = Call.attachRole x u.d.policy_arn) ∧
      ((updateRoles conn u).2 = none →
        (updateRoles conn u).1 =
          (setDifference u.priorRoles u.d.roles).map
            (fun x => Call.detachRole x u.d.policy_arn) ++
          (setDifference u.d.roles u.priorRoles).map
            (fun x => Call.attachRole x u.d.policy_arn))) ∧
    (∃ td ta, (updateGroups conn u).1 = td ++ ta ∧
      (∀ c ∈ td, ∃ x, x ∈ setDifference u.priorGroups u.d.groups ∧
        c = Call.detachGroup x u.d.policy_arn) ∧
      (∀ c ∈ ta, ∃ x, x ∈ setDifference u.d.groups u.priorGroups ∧
        c = Call.attachGroup x u.d.policy_arn) ∧
      ((updateGroups conn u).2 = none →
        (updateGroups conn u).1 =
          (setDifference u.priorGroups u.d.groups).map
            (fun x => Call.detachGroup x u.d.policy_arn) ++
          (setDifference u.d.groups u.priorGroups).map
            (fun x => Call.attachGroup x u.d.policy_arn))) :=
  ⟨updateUsers_shape conn u, updateRoles_shape conn u, updateGroups_shape conn u⟩


/-- The four `Call` classifiers are consistent: a call of one kind is not of
another kind, and kind calls are mutations. -/
theorem kindCall_mutation (c : Call) :
    (c.isUserCall = true → c.isRoleCall = false ∧ c.isGroupCall = false ∧ c.isMutation = true) ∧
    (c.isRoleCall = true → c.isUserCall = false ∧ c.isGroupCall = false ∧ c.isMutation = true) ∧
    (c.isGroupCall = true → c.isUserCall = false ∧ c.isRoleCall = false ∧ c.isMutation = true) := by
  cases c <;> simp [Call.isUserCall, Call.isRoleCall, Call.isGroupCall, Call.isMutation]

/-- Membership in the trace of a conditionally-run per-kind reconciliation:
the condition held and the call is in the kind's own trace. -/
theorem mem_ite_component {P : Prop} [Decidable P] {x : List Call × Option GoError} {c : Call}
    (h : c ∈ (if P then x else (([] : List Call), (none : Option GoError))).1) :
    P ∧ c ∈ x.1 := by
  by_cases hp : P
  · rw [if_pos hp] at h
    exact ⟨hp, h⟩
  · rw [if_neg hp] at h
    exact absurd h (List.not_mem_nil c)

/-- Membership in Update's final trace: the call was issued by a per-kind
reconciliation or by the trailing Read. -/
theorem mem_update_ite {P : Prop} [Decidable P] {t r : List Call} {d1 d2 : ResourceData}
    {e1 e2 : Option GoError} {c : Call}
    (h : c ∈ (if P then (t, d1, e1) else (t ++ r, d2, e2)).1) : c ∈ t ∨ c ∈ r := by
  by_cases hp : P
  · rw [if_pos hp] at h
    exact Or.inl h
  · rw [if_neg hp] at h
    exact List.mem_append.mp h

/-- Every call Update issues either belongs to a kind whose field had a
declared change, or is one of Read's (non-mutating) calls. -/
theorem update_calls (conn : IAMConn) (u : UpdateData) :
    ∀ c ∈ (resourceAwsIamPolicyAttachmentUpdate conn u).1,
      (hasChange u.priorUsers u.d.users = true ∧ c.isUserCall = true) ∨
      (hasChange u.priorRoles u.d.roles = true ∧ c.isRoleCall = true) ∨
      (hasChange u.priorGroups u.d.groups = true ∧ c.isGroupCall = true) ∨
      c.isMutation = false := by
  intro c hc
  simp only [resourceAwsIamPolicyAttachmentUpdate] at hc
  rcases mem_update_ite hc with h | h
  · rcases List.mem_append.mp h with h2 | h2
    · rcases List.mem_append.mp h2 with h3 | h3
      · obtain ⟨hP, h4⟩ := mem_ite_component h3
        exact Or.inl ⟨hP, updateUsers_kind_calls conn u c h4⟩
      · obtain ⟨hP, h4⟩ := mem_ite_component h3
        exact Or.inr (Or.inl ⟨hP, updateRoles_kind_calls conn u c h4⟩)
    · obtain ⟨hP, h4⟩ := mem_ite_component h2
      exact Or.inr (Or.inr (Or.inl ⟨hP, updateGroups_kind_calls conn u c h4⟩))
  · exact Or.inr (Or.inr (Or.inr (read_no_mutation conn u.d c h)))

/-- C6: reconciling with prior = desired = D for every kind (the state after
a successful reconciliation to D) issues zero remote attach or detach calls
(the trailing Read issues only its two read-only requests). -/
theorem update_idempotent (conn : IAMConn) (u : UpdateData)
    (hu : u.priorUsers = u.d.users) (hr : u.priorRoles = u.d.roles)
    (hg : u.priorGroups = u.d.groups) :
    (resourceAwsIamPolicyAttachmentUpdate conn u).1.filter (fun c => c.isMutation) = [] := by
  rw [List.filter_eq_nil_iff]
  intro c hc
  rcases update_calls conn u c hc with ⟨h, _⟩ | ⟨h, _⟩ | ⟨h, _⟩ | h
  · rw [hu] at h; simp [hasChange, setEq_refl] at h
  · rw [hr] at h; simp [hasChange, setEq_refl] at h
  · rw [hg] at h; simp [hasChange, setEq_refl] at h
  · simp [h]

/-- C8: during Update, a kind whose prior and desired sets are equal (as
sets, so `HasChange` is false) gets no remote attach or detach calls. -/
theorem update_unchanged_kind_untouched (conn : IAMConn) (u : UpdateData) :
    (setEq u.priorUsers u.d.users = true →
      (resourceAwsIamPolicyAttachmentUpdate conn u).1.filter (fun c => c.isUserCall) = []) ∧
    (setEq u.priorRoles u.d.roles = true →
      (resourceAwsIamPolicyAttachmentUpdate conn u).1.filter (fun c => c.isRoleCall) = []) ∧
    (setEq u.priorGroups u.d.groups = true →
      (resourceAwsIamPolicyAttachmentUpdate conn u).1.filter (fun c => c.isGroupCall) = []) := by
  refine ⟨fun h => ?_, fun h => ?_, fun h => ?_⟩ <;> rw [List.filter_eq_nil_iff] <;> intro c hc
  · rcases update_calls conn u c hc with ⟨h1, h2⟩ | ⟨h1, h2⟩ | ⟨h1, h2⟩ | h1
    · rw [hasChange, h] at h1
      exact absurd h1 (by simp)
    · simp [((kindCall_mutation c).2.1 h2).1]
    · simp [((kindCall_mutation c).2.2 h2).1]
    · cases hcu : c.isUserCall
      · simp [hcu]
      · have h3 := ((kindCall_mutation c).1 hcu).2.2
        rw [h3] at h1
        exact absurd h1 (by simp)
  · rcases update_calls conn u c hc with ⟨h1, h2⟩ | ⟨h1, h2⟩ | ⟨h1, h2⟩ | h1
    · simp [((kindCall_mutation c).1 h2).1]
    · rw [hasChange, h] at h1
      exact absurd h1 (by simp)
    · simp [((kindCall_mutation c).2.2 h2).2.1]
    · cases hcu : c.isRoleCall
      · simp [hcu]
      · have h3 := ((kindCall_mutation c).2.1 hcu).2.2
        rw [h3] at h1
        exact absurd h1 (by simp)
  · rcases update_calls conn u c hc with ⟨h1, h2⟩ | ⟨h1, h2⟩ | ⟨h1, h2⟩ | h1
    · simp [((kindCall_mutation c).1 h2).2.1]
    · simp [((kindCall_mutation c).2.1 h2).2.1]
    · rw [hasChange, h] at h1
      exact absurd h1 (by simp)
    · cases hcu : c.isGroupCall
      · simp [hcu]
      · have h3 := ((kindCall_mutation c).2.2 hcu).2.2
        rw [h3] at h1
        exact absurd h1 (by simp)


/-- A non-empty declared set expands to a non-nil slice holding the same
elements. -/
theorem expandStringList_of_ne_nil {l : List String} (h : l ≠ []) :
    expandStringList l = some l := by
  cases l with
  | nil => exact absurd rfl h
  | cons a t => rfl

/-- Read's trace contains no attach or detach call. -/
theorem read_filter_no_mutation (conn : IAMConn) (d : ResourceData) :
    (resourceAwsIamPolicyAttachmentRead conn d).1.filter (fun c => c.isMutation) = [] := by
  rw [List.filter_eq_nil_iff]
  intro c hc
  have h := read_no_mutation conn d c hc
  simp [h]

/-- C7: for every prior set P and desired set D, `remove = P − D` and
`add = D − P` are disjoint, `remove ⊆ P`, `add ⊆ D`, and
`(P − remove) ∪ add` equals D as a set. -/
theorem setDifference_spec (P D : List String) :
    (∀ x ∈ setDifference P D, x ∉ setDifference D P) ∧
    (∀ x ∈ setDifference P D, x ∈ P) ∧
    (∀ x ∈ setDifference D P, x ∈ D) ∧
    (∀ x, (x ∈ setDifference P (setDifference P D) ∨ x ∈ setDifference D P) ↔ x ∈ D) := by
  refine ⟨?_, ?_, ?_, ?_⟩
  · intro x hx
    rw [mem_setDifference] at hx
    rw [mem_setDifference]
    intro hx2
    exact hx.2 hx2.1
  · intro x hx
    exact ((mem_setDifference P D x).mp hx).1
  · intro x hx
    exact ((mem_setDifference D P x).mp hx).1
  · intro x
    simp only [mem_setDifference]
    constructor
    · rintro (⟨hp, hn⟩ | ⟨hd, -⟩)
      · by_contra hD
        exact hn ⟨hp, hD⟩
      · exact hd
    · intro hD
      by_cases hP : x ∈ P
      · exact Or.inl ⟨hP, fun hcon => hcon.2 hD⟩
      · exact Or.inr ⟨hD, hP⟩

/-- C2: Create with all three declared sets empty fails with the validation
error ("no Users, Roles, or Groups specified") and issues zero remote
calls. -/
theorem create_no_principals (conn : IAMConn) (name arn idv : String) :
    resourceAwsIamPolicyAttachmentCreate conn ⟨name, arn, [], [], [], idv⟩ =
      ([], ⟨name, arn, [], [], [], idv⟩, some (GoError.validation name)) := rfl

/-- C9: Create with desired users = {"alice"} and empty roles and groups
issues exactly one attach/detach call, namely AttachUserPolicy("alice", arn),
so zero AttachRolePolicy and zero AttachGroupPolicy calls. -/
theorem create_single_user (conn : IAMConn) (name arn idv : String) :
    (resourceAwsIamPolicyAttachmentCreate conn ⟨name, arn, ["alice"], [], [], idv⟩).1.filter
      (fun c => c.isMutation) = [Call.attachUser "alice" arn] := by
  cases hcall : conn.attachUserPolicy "alice" arn with
  | some e =>
    simp [resourceAwsIamPolicyAttachmentCreate, createUserResult, createRoleResult,
      createGroupResult, expandStringList, attachPolicyToUsers, attachPolicyToRoles,
      attachPolicyToGroups, hcall, Call.isMutation]
  | none =>
    have htr : (resourceAwsIamPolicyAttachmentCreate conn
        ⟨name, arn, ["alice"], [], [], idv⟩).1 =
        [Call.attachUser "alice" arn] ++
          (resourceAwsIamPolicyAttachmentRead conn ⟨name, arn, ["alice"], [], [], name⟩).1 := by
      simp [resourceAwsIamPolicyAttachmentCreate, createUserResult, createRoleResult,
        createGroupResult, expandStringList, attachPolicyToUsers, attachPolicyToRoles,
        attachPolicyToGroups, hcall]
    rw [htr, List.filter_append, read_filter_no_mutation]
    simp [Call.isMutation]

/-- When the remote endpoint succeeds on every member of `pre` and fails on
`r`, `attachPolicyToRoles` issues the calls for `pre` and `r` and stops: no
member of `post` is attempted. -/
theorem attachPolicyToRoles_split (conn : IAMConn) (pre : List String) (r : String)
    (post : List String) (arn : String) (e : GoError)
    (h1 : ∀ x ∈ pre, conn.attachRolePolicy x arn = none)
    (h2 : conn.attachRolePolicy r arn = some e) :
    attachPolicyToRoles conn (pre ++ r :: post) arn =
      ((pre.map fun x => Call.attachRole x arn) ++ [Call.attachRole r arn], some e) := by
  induction pre with
  | nil => simp [attachPolicyToRoles, h2]
  | cons p ps ih =>
    have hp : conn.attachRolePolicy p arn = none := h1 p (List.mem_cons_self p ps)
    have ihh := ih (fun x hx => h1 x (List.mem_cons_of_mem p hx))
    simp only [List.cons_append, attachPolicyToRoles, hp, List.append_eq, ihh]
    simp

/-- When the remote endpoint succeeds on every member of `pre` and fails on
`g`, `attachPolicyToGroups` issues the calls for `pre` and `g` and stops: no
member of `post` is attempted. -/
theorem attachPolicyToGroups_split (conn : IAMConn) (pre : List String) (g : String)
    (post : List String) (arn : String) (e : GoError)
    (h1 : ∀ x ∈ pre, conn.attachGroupPolicy x arn = none)
    (h2 : conn.attachGroupPolicy g arn = some e) :
    attachPolicyToGroups conn (pre ++ g :: post) arn =
      ((pre.map fun x => Call.attachGroup x arn) ++ [Call.attachGroup g arn], some e) := by
  induction pre with
  | nil => simp [attachPolicyToGroups, h2]
  | cons p ps ih =>
    have hp : conn.attachGroupPolicy p arn = none := h1 p (List.mem_cons_self p ps)
    have ihh := ih (fun x hx => h1 x (List.mem_cons_of_mem p hx))
    simp only [List.cons_append, attachPolicyToGroups, hp, List.append_eq, ihh]
    simp

/-- C3: during Create, whichever principal kind has an individual attach call
fail, that kind's loop stops at the failing element (its remaining members
are not attempted), the other two kinds' legs still run exactly as they
would alone, and Create fails with the aggregate error carrying all three
per-kind slots. -/
theorem create_partial_failure (conn : IAMConn) (d : ResourceData) :
    (∀ us1 uu us2 e, d.users = us1 ++ uu :: us2 →
      (∀ x ∈ us1, conn.attachUserPolicy x d.policy_arn = none) →
      conn.attachUserPolicy uu d.policy_arn = some e →
      resourceAwsIamPolicyAttachmentCreate conn d =
        (((us1.map fun x => Call.attachUser x d.policy_arn) ++
            [Call.attachUser uu d.policy_arn]) ++
           (createRoleResult conn d).1 ++ (createGroupResult conn d).1, d,
         some (GoError.aggregateCreate d.name (some e) (createRoleResult conn d).2
           (createGroupResult conn d).2))) ∧
    (∀ rs1 rr rs2 e, d.roles = rs1 ++ rr :: rs2 →
      (∀ x ∈ rs1, conn.attachRolePolicy x d.policy_arn = none) →
      conn.attachRolePolicy rr d.policy_arn = some e →
      resourceAwsIamPolicyAttachmentCreate conn d =
        ((createUserResult conn d).1 ++
           ((rs1.map fun x => Call.attachRole x d.policy_arn) ++
             [Call.attachRole rr d.policy_arn]) ++
           (createGroupResult conn d).1, d,
         some (GoError.aggregateCreate d.name (createUserResult conn d).2 (some e)
           (createGroupResult conn d).2))) ∧
    (∀ gs1 gg gs2 e, d.groups = gs1 ++ gg :: gs2 →
      (∀ x ∈ gs1, conn.attachGroupPolicy x d.policy_arn = none) →
      conn.attachGroupPolicy gg d.policy_arn = some e →
      resourceAwsIamPolicyAttachmentCreate conn d =
        ((createUserResult conn d).1 ++ (createRoleResult conn d).1 ++
           ((gs1.map fun x => Call.attachGroup x d.policy_arn) ++
             [Call.attachGroup gg d.policy_arn]), d,
         some (GoError.aggregateCreate d.name (createUserResult conn d).2
           (createRoleResult conn d).2 (some e)))) := by
  refine ⟨?_, ?_, ?_⟩
  · intro us1 uu us2 e husers h1 h2
    have hne : d.users ≠ [] := by rw [husers]; simp
    have hexp : expandStringList (us1 ++ uu :: us2) = some (us1 ++ uu :: us2) :=
      expandStringList_of_ne_nil (by simp)
    have hu : createUserResult conn d =
        ((us1.map fun x => Call.attachUser x d.policy_arn) ++
          [Call.attachUser uu d.policy_arn], some e) := by
      simp only [createUserResult, husers, hexp]
      exact attachPolicyToUsers_split conn us1 uu us2 d.policy_arn e h1 h2
    simp only [resourceAwsIamPolicyAttachmentCreate, expandStringList_of_ne_nil hne]
    simp [hu]
  · intro rs1 rr rs2 e hroles h1 h2
    have hne : d.roles ≠ [] := by rw [hroles]; simp
    have hexp : expandStringList (rs1 ++ rr :: rs2) = some (rs1 ++ rr :: rs2) :=
      expandStringList_of_ne_nil (by simp)
    have hr : createRoleResult conn d =
        ((rs1.map fun x => Call.attachRole x d.policy_arn) ++
          [Call.attachRole rr d.policy_arn], some e) := by
      simp only [createRoleResult, hroles, hexp]
      exact attachPolicyToRoles_split conn rs1 rr rs2 d.policy_arn e h1 h2
    simp only [resourceAwsIamPolicyAttachmentCreate, expandStringList_of_ne_nil hne]
    simp [hr]
  · intro gs1 gg gs2 e hgroups h1 h2
    have hne : d.groups ≠ [] := by rw [hgroups]; simp
    have hexp : expandStringList (gs1 ++ gg :: gs2) = some (gs1 ++ gg :: gs2) :=
      expandStringList_of_ne_nil (by simp)
    have hg : createGroupResult conn d =
        ((gs1.map fun x => Call.attachGroup x d.policy_arn) ++
          [Call.attachGroup gg d.policy_arn], some e) := by
      simp only [createGroupResult, hgroups, hexp]
      exact attachPolicyToGroups_split conn gs1 gg gs2 d.policy_arn e h1 h2
    simp only [resourceAwsIamPolicyAttachmentCreate, expandStringList_of_ne_nil hne]
    simp [hg]

/-- C10: Create sets the resource id to the name only when all three attach
legs succeeded; when any per-kind attach error occurred Create returns the
aggregate error and the resource data (in particular its id) unchanged,
while on success the id is set to the name before the trailing Read runs. -/
theorem create_sets_id_iff_attach_ok (conn : IAMConn) (d : ResourceData)
    (hne : ((expandStringList d.users).isNone && (expandStringList d.roles).isNone &&
      (expandStringList d.groups).isNone) = false) :
    (((createUserResult conn d).2.isSome || (createRoleResult conn d).2.isSome ||
        (createGroupResult conn d).2.isSome) = true →
      resourceAwsIamPolicyAttachmentCreate conn d =
        ((createUserResult conn d).1 ++ (createRoleResult conn d).1 ++
           (createGroupResult conn d).1, d,
         some (GoError.aggregateCreate d.name (createUserResult conn d).2
           (createRoleResult conn d).2 (createGroupResult conn d).2)) ∧
      (resourceAwsIamPolicyAttachmentCreate conn d).2.1.id = d.id) ∧
    (((createUserResult conn d).2.isSome || (createRoleResult conn d).2.isSome ||
        (createGroupResult conn d).2.isSome) = false →
      resourceAwsIamPolicyAttachmentCreate conn d =
        ((createUserResult conn d).1 ++ (createRoleResult conn d).1 ++
           (createGroupResult conn d).1 ++
           (resourceAwsIamPolicyAttachmentRead conn { d with id := d.name }).1,
         (resourceAwsIamPolicyAttachmentRead conn { d with id := d.name }).2.1,
         (resourceAwsIamPolicyAttachmentRead conn { d with id := d.name }).2.2)) := by
  constructor
  · intro h
    have heq : resourceAwsIamPolicyAttachmentCreate conn d =
        ((createUserResult conn d).1 ++ (createRoleResult conn d).1 ++
           (createGroupResult conn d).1, d,
         some (GoError.aggregateCreate d.name (createUserResult conn d).2
           (createRoleResult conn d).2 (createGroupResult conn d).2)) := by
      simp only [resourceAwsIamPolicyAttachmentCreate, hne]
      simp only [Bool.false_eq_true, if_false, h, if_true]
    exact ⟨heq, by rw [heq]⟩
  · intro h
    simp only [resourceAwsIamPolicyAttachmentCreate, hne]
    simp only [Bool.false_eq_true, if_false, h]

/-- C4: Read on the identity-not-found condition (an `awserr.Error` with code
`NoSuchIdentity` from GetPolicy) clears the id and succeeds, issuing only the
one GetPolicy call (zero ListEntitiesForPolicy calls); any other GetPolicy
error is propagated unchanged, again after only the one GetPolicy call. -/
theorem read_not_found_or_propagate (conn : IAMConn) (d : ResourceData) :
    (∀ msg, conn.getPolicy d.policy_arn = some (GoError.awsError "NoSuchIdentity" msg) →
      resourceAwsIamPolicyAttachmentRead conn d =
        ([Call.getPolicy d.policy_arn], { d with id := "" }, none)) ∧
    (∀ e, conn.getPolicy d.policy_arn = some e →
      (∀ msg, e ≠ GoError.awsError "NoSuchIdentity" msg) →
      resourceAwsIamPolicyAttachmentRead conn d =
        ([Call.getPolicy d.policy_arn], d, some e)) := by
  constructor
  · intro msg h
    simp only [resourceAwsIamPolicyAttachmentRead, h]
    simp
  · intro e he hne2
    simp only [resourceAwsIamPolicyAttachmentRead, he]
    cases e with
    | awsError code msg =>
      have hcode : ¬(code = "NoSuchIdentity") := by
        intro hc
        exact hne2 msg (by rw [hc])
      simp [hcode]
    | otherError m => rfl
    | validation n => rfl
    | aggregateCreate n a b c => rfl
    | aggregateRead n a b c => rfl
    | aggregateUpdate n a b c => rfl
    | aggregateDelete n a b c => rfl

/-- C5 (amended): Delete with empty users and roles whose groups list is
`gs1 ++ g :: gs2`, when the detaches for `gs1` succeed and the detach for `g`
fails, aborts the groups loop at `g` — no member of `gs2` is attempted — and
returns the aggregate error whose groups slot is `g`'s failure. -/
theorem delete_group_fail_aborts (conn : IAMConn) (d : ResourceData)
    (gs1 : List String) (g : String) (gs2 : List String) (e : GoError)
    (husers : d.users = []) (hroles : d.roles = [])
    (hgroups : d.groups = gs1 ++ g :: gs2)
    (h1 : ∀ x ∈ gs1, conn.detachGroupPolicy x d.policy_arn = none)
    (h2 : conn.detachGroupPolicy g d.policy_arn = some e) :
    resourceAwsIamPolicyAttachmentDelete conn d =
      ((gs1.map fun x => Call.detachGroup x d.policy_arn) ++
         [Call.detachGroup g d.policy_arn],
       some (GoError.aggregateDelete d.name none none (some e))) := by
  have hgne : d.groups ≠ [] := by rw [hgroups]; simp
  have hexp : expandStringList (gs1 ++ g :: gs2) = some (gs1 ++ g :: gs2) :=
    expandStringList_of_ne_nil (by simp)
  have hg : deleteGroupResult conn d =
      ((gs1.map fun x => Call.detachGroup x d.policy_arn) ++
        [Call.detachGroup g d.policy_arn], some e) := by
    simp only [deleteGroupResult, hgroups, hexp]
    exact detachPolicyFromGroups_split conn gs1 g gs2 d.policy_arn e h1 h2
  have hu : deleteUserResult conn d = ([], none) := by
    simp [deleteUserResult, husers, expandStringList]
  have hr : deleteRoleResult conn d = ([], none) := by
    simp [deleteRoleResult, hroles, expandStringList]
  simp only [resourceAwsIamPolicyAttachmentDelete, hu, hr, hg]
  simp


/-- A connection on which every remote call succeeds and the policy has no
attached entities. -/
def connOk : IAMConn where
  attachUserPolicy := fun _ _ => none
  attachRolePolicy := fun _ _ => none
  attachGroupPolicy := fun _ _ => none
  detachUserPolicy := fun _ _ => none
  detachRolePolicy := fun _ _ => none
  detachGroupPolicy := fun _ _ => none
  getPolicy := fun _ => none
  listEntitiesForPolicy := fun _ => Except.ok ⟨[], [], []⟩

/-- A connection on which every AttachUserPolicy call fails. -/
def connUserFail : IAMConn where
  attachUserPolicy := fun _ _ => some (GoError.otherError "boom")
  attachRolePolicy := fun _ _ => none
  attachGroupPolicy := fun _ _ => none
  detachUserPolicy := fun _ _ => none
  detachRolePolicy := fun _ _ => none
  detachGroupPolicy := fun _ _ => none
  getPolicy := fun _ => none
  listEntitiesForPolicy := fun _ => Except.ok ⟨[], [], []⟩

/-- A connection on which every AttachRolePolicy call fails. -/
def connRoleFail : IAMConn where
  attachUserPolicy := fun _ _ => none
  attachRolePolicy := fun _ _ => some (GoError.otherError "boom")
  attachGroupPolicy := fun _ _ => none
  detachUserPolicy := fun _ _ => none
  detachRolePolicy := fun _ _ => none
  detachGroupPolicy := fun _ _ => none
  getPolicy := fun _ => none
  listEntitiesForPolicy := fun _ => Except.ok ⟨[], [], []⟩

/-- A connection on which detaching group "g1" fails and everything else
succeeds. -/
def connGroupFail : IAMConn where
  attachUserPolicy := fun _ _ => none
  attachRolePolicy := fun _ _ => none
  attachGroupPolicy := fun _ _ => none
  detachUserPolicy := fun _ _ => none
  detachRolePolicy := fun _ _ => none
  detachGroupPolicy := fun g _ => if g = "g1" then some (GoError.otherError "boom") else none
  getPolicy := fun _ => none
  listEntitiesForPolicy := fun _ => Except.ok ⟨[], [], []⟩

/-- A connection on which GetPolicy reports the identity-not-found error. -/
def connNotFound : IAMConn where
  attachUserPolicy := fun _ _ => none
  attachRolePolicy := fun _ _ => none
  attachGroupPolicy := fun _ _ => none
  detachUserPolicy := fun _ _ => none
  detachRolePolicy := fun _ _ => none
  detachGroupPolicy := fun _ _ => none
  getPolicy := fun _ => some (GoError.awsError "NoSuchIdentity" "gone")
  listEntitiesForPolicy := fun _ => Except.ok ⟨[], [], []⟩

/-- A connection on which GetPolicy fails with a non-AWS error. -/
def connReadErr : IAMConn where
  attachUserPolicy := fun _ _ => none
  attachRolePolicy := fun _ _ => none
  attachGroupPolicy := fun _ _ => none
  detachUserPolicy := fun _ _ => none
  detachRolePolicy := fun _ _ => none
  detachGroupPolicy := fun _ _ => none
  getPolicy := fun _ => some (GoError.otherError "denied")
  listEntitiesForPolicy := fun _ => Except.ok ⟨[], [], []⟩

/-- A resource declaring users {"alice"} only. -/
def dAlice : ResourceData := ⟨"n", "p", ["alice"], [], [], ""⟩

/-- A resource declaring two users and one role. -/
def dUsers : ResourceData := ⟨"n", "p", ["u1", "u2"], ["r1"], [], ""⟩

/-- A resource declaring groups {"g1", "g2"} only. -/
def dGroups : ResourceData := ⟨"n", "p", [], [], ["g1", "g2"], "n"⟩

/-- A tracked resource, for Read. -/
def dRead : ResourceData := ⟨"n", "p", ["a"], [], [], "n"⟩

/-- An update whose prior sets all equal the desired sets. -/
def uIdem : UpdateData := ⟨⟨"n", "p", ["a"], ["r"], [], "n"⟩, ["a"], ["r"], []⟩

/-- An update changing roles {"r1","r2"} to {"r2","r3"} with users and groups
unchanged. -/
def uRolesChange : UpdateData :=
  ⟨⟨"n", "p", ["a"], ["r2", "r3"], [], "n"⟩, ["a"], ["r1", "r2"], []⟩

/-- Witness for the partial-failure behaviour of Create, for a failing kind
on each side: attaching user "u1" fails ("u2" is not attempted, roles still
run), and, at a second connection, attaching role "r1" fails after the users
leg ran; the aggregate error carries the per-kind slots in both cases. -/
theorem create_partial_failure_witness :
    resourceAwsIamPolicyAttachmentCreate connUserFail dUsers =
      (((([] : List String).map fun x => Call.attachUser x dUsers.policy_arn) ++
          [Call.attachUser "u1" dUsers.policy_arn]) ++
         (createRoleResult connUserFail dUsers).1 ++ (createGroupResult connUserFail dUsers).1,
       dUsers,
       some (GoError.aggregateCreate dUsers.name (some (GoError.otherError "boom"))
         (createRoleResult connUserFail dUsers).2 (createGroupResult connUserFail dUsers).2)) ∧
    resourceAwsIamPolicyAttachmentCreate connRoleFail dUsers =
      ((createUserResult connRoleFail dUsers).1 ++
         ((([] : List String).map fun x => Call.attachRole x dUsers.policy_arn) ++
           [Call.attachRole "r1" dUsers.policy_arn]) ++
         (createGroupResult connRoleFail dUsers).1,
       dUsers,
       some (GoError.aggregateCreate dUsers.name (createUserResult connRoleFail dUsers).2
         (some (GoError.otherError "boom")) (createGroupResult connRoleFail dUsers).2)) :=
  ⟨(create_partial_failure connUserFail dUsers).1 [] "u1" ["u2"] (GoError.otherError "boom")
     rfl (fun x hx => absurd hx (List.not_mem_nil x)) rfl,
   (create_partial_failure connRoleFail dUsers).2.1 [] "r1" [] (GoError.otherError "boom")
     rfl (fun x hx => absurd hx (List.not_mem_nil x)) rfl⟩

/-- Witness for Read's NotFound and error-propagation behaviour at concrete
connections. -/
theorem read_not_found_or_propagate_witness :
    resourceAwsIamPolicyAttachmentRead connNotFound dRead =
      ([Call.getPolicy "p"], ⟨"n", "p", ["a"], [], [], ""⟩, none) ∧
    resourceAwsIamPolicyAttachmentRead connReadErr dRead =
      ([Call.getPolicy "p"], dRead, some (GoError.otherError "denied")) :=
  ⟨(read_not_found_or_propagate connNotFound dRead).1 "gone" rfl,
   (read_not_found_or_propagate connReadErr dRead).2 (GoError.otherError "denied") rfl
     (fun _ h => GoError.noConfusion h)⟩

/-- Counterexample to the claim that Delete with groups {"g1","g2"} still
attempts detaching "g2" after "g1" fails: with "g1" processed first, the
trace stops at "g1" and contains no call for "g2". -/
theorem delete_g2_not_attempted_counterexample :
    Call.detachGroup "g2" "p" ∉ (resourceAwsIamPolicyAttachmentDelete connGroupFail dGroups).1 ∧
    (resourceAwsIamPolicyAttachmentDelete connGroupFail dGroups).1 =
      [Call.detachGroup "g1" "p"] ∧
    (resourceAwsIamPolicyAttachmentDelete connGroupFail dGroups).2 =
      some (GoError.aggregateDelete "n" none none (some (GoError.otherError "boom"))) :=
  ⟨by decide, by decide, rfl⟩

/-- Witness for the amended Delete claim at groups {"g1","g2"} with "g1"
failing. -/
theorem delete_group_fail_aborts_witness :
    resourceAwsIamPolicyAttachmentDelete connGroupFail dGroups =
      ((([] : List String).map fun x => Call.detachGroup x dGroups.policy_arn) ++
         [Call.detachGroup "g1" dGroups.policy_arn],
       some (GoError.aggregateDelete dGroups.name none none
         (some (GoError.otherError "boom")))) :=
  delete_group_fail_aborts connGroupFail dGroups [] "g1" ["g2"] (GoError.otherError "boom")
    rfl rfl rfl (fun x hx => absurd hx (List.not_mem_nil x)) rfl

/-- Witness for idempotence: re-reconciling an already-reconciled state
issues no attach or detach call. -/
theorem update_idempotent_witness :
    (resourceAwsIamPolicyAttachmentUpdate connOk uIdem).1.filter (fun c => c.isMutation) = [] :=
  update_idempotent connOk uIdem rfl rfl rfl

/-- Witness for the unchanged-kind claim: with users unchanged and roles
changing from {"r1","r2"} to {"r2","r3"}, no user call is issued. -/
theorem update_unchanged_kind_untouched_witness :
    setEq uRolesChange.priorUsers uRolesChange.d.users = true ∧
    (resourceAwsIamPolicyAttachmentUpdate connOk uRolesChange).1.filter
      (fun c => c.isUserCall) = [] :=
  ⟨by decide, (update_unchanged_kind_untouched connOk uRolesChange).1 (by decide)⟩

/-- Witness for the id-only-on-success claim: with the user attach failing,
Create returns the aggregate error and leaves the id unset. -/
theorem create_sets_id_iff_attach_ok_witness :
    ((expandStringList dAlice.users).isNone && (expandStringList dAlice.roles).isNone &&
      (expandStringList dAlice.groups).isNone) = false ∧
    (resourceAwsIamPolicyAttachmentCreate connUserFail dAlice =
      ((createUserResult connUserFail dAlice).1 ++ (createRoleResult connUserFail dAlice).1 ++
         (createGroupResult connUserFail dAlice).1, dAlice,
       some (GoError.aggregateCreate dAlice.name (createUserResult connUserFail dAlice).2
         (createRoleResult connUserFail dAlice).2 (createGroupResult connUserFail dAlice).2)) ∧
     (resourceAwsIamPolicyAttachmentCreate connUserFail dAlice).2.1.id = dAlice.id) :=
  ⟨by decide, (create_sets_id_iff_attach_ok connUserFail dAlice (by decide)).1 (by decide)⟩

end IamPolicyAttach
